import Mathlib

/-!
Verification of the instance-mask decomposition logic of
`PennFudanDataset.__getitem__` (torchvision finetuning notebook).

The label image is embedded as `List (List Nat)` (row-major grid of
non-negative pixel values; the source reads `uint8` pixels, all small
non-negative integers, so `Nat` is exact).  Tensor packaging
(`torch.as_tensor`, `float32`) is abstracted to lists of exact numbers:
every quantity appearing in the claims (coordinates, areas, labels,
`iscrowd` flags) is a small integer represented exactly by `float32`.

`decomposeSrc` is the shallow embedding of the source's decomposition:
  obj_ids = np.unique(mask)[1:]          -- sorted distinct values, first dropped
  masks   = mask == obj_ids[:,None,None] -- one boolean mask per id
  boxes   = per-mask min/max of column (x) and row (y) coordinates
  labels  = ones, iscrowd = zeros
  area    = (ymax - ymin) * (xmax - xmin)
`np.min`/`np.max` on an empty coordinate set raise in the source, so the
per-id box computation is `Option`-valued; likewise, when the id list is
empty the `boxes` Python list is empty, `torch.as_tensor([])` is a 1-D
tensor, and the 2-D indexing `boxes[:, 3]` of the area line raises
(IndexError), so the area step is `Option`-valued too.  The whole
decomposition returns `Option SrcResult` (`none` = the source raises).
-/

namespace PennFudan

/-- A label image: row-major grid of non-negative pixel values. -/
abbrev Grid := List (List Nat)

/-- An axis-aligned bounding box, the source's `[xmin, ymin, xmax, ymax]` row. -/
structure Box where
  xmin : Nat
  ymin : Nat
  xmax : Nat
  ymax : Nat
deriving Repr, DecidableEq

/-- The decomposition part of the `target` dict built by `__getitem__`:
`obj_ids`, `masks`, `boxes`, `labels`, `area`, `iscrowd` (image_id is the
caller-supplied sample index, not derived from the label image). -/
structure SrcResult where
  objIds : List Nat
  masks : List (List (List Bool))
  boxes : List Box
  labels : List Nat
  area : List Nat
  iscrowd : List Nat
deriving Repr, DecidableEq

/-- Insert a value into a sorted duplicate-free list, keeping it sorted and
duplicate-free. -/
def insertUnique (x : Nat) : List Nat → List Nat
  | [] => [x]
  | y :: ys => if x = y then y :: ys else if x < y then x :: y :: ys else y :: insertUnique x ys

/-- `np.unique(mask)`: the distinct values present in the grid, sorted
ascending. -/
def uniqueSorted (g : Grid) : List Nat :=
  g.flatten.foldr insertUnique []

/-- `mask == v` under numpy broadcasting: the boolean mask of pixels equal
to `v`. -/
def maskOf (g : Grid) (v : Nat) : List (List Bool) :=
  g.map (fun row => row.map (fun p => p == v))

/-- Pair each element with its index, starting from `i`. -/
def idxFrom (i : Nat) : List α → List (Nat × α)
  | [] => []
  | x :: xs => (i, x) :: idxFrom (i + 1) xs

/-- `np.where(m)`: the `(row, col)` positions where the mask is true. -/
def truePositions (m : List (List Bool)) : List (Nat × Nat) :=
  (idxFrom 0 m).flatMap (fun rc =>
    (idxFrom 0 rc.2).filterMap (fun cb => if cb.2 then some (rc.1, cb.1) else none))

/-- Fold of `min` over a list with seed `x` (`np.min` over `x :: xs`). -/
def listMin (x : Nat) (xs : List Nat) : Nat := xs.foldl min x

/-- Fold of `max` over a list with seed `x` (`np.max` over `x :: xs`). -/
def listMax (x : Nat) (xs : List Nat) : Nat := xs.foldl max x

/-- The source's per-id bounding box: min/max of the column (x) and row (y)
coordinates of the id's pixels.  `np.min`/`np.max` raise on an empty
position set, modelled by `none`. -/
def bboxOf (g : Grid) (v : Nat) : Option Box :=
  match truePositions (maskOf g v) with
  | [] => none
  | p :: ps =>
    some { xmin := listMin p.2 (ps.map Prod.snd)
           ymin := listMin p.1 (ps.map Prod.fst)
           xmax := listMax p.2 (ps.map Prod.snd)
           ymax := listMax p.1 (ps.map Prod.fst) }

/-- The source's box loop: one box per id, raising (`none`) if any id has no
pixels. -/
def bboxes (g : Grid) : List Nat → Option (List Box)
  | [] => some []
  | v :: vs =>
    match bboxOf g v, bboxes g vs with
    | some b, some bs => some (b :: bs)
    | _, _ => none

/-- The area of one box row under the source's area line:
`(boxes[:,3] - boxes[:,1]) * (boxes[:,2] - boxes[:,0])`, i.e.
`(ymax - ymin) * (xmax - xmin)`. -/
def areaOfBox (b : Box) : Nat := (b.ymax - b.ymin) * (b.xmax - b.xmin)

/-- The source's area line applied to the whole box list.  On an empty
list, `torch.as_tensor([], dtype=torch.float32)` is a 1-D tensor of shape
`(0,)` and the 2-D indexing `boxes[:, 3]` raises IndexError, modelled by
`none`; on a non-empty list the tensor is 2-D and the line yields one area
per box. -/
def areaLine : List Box → Option (List Nat)
  | [] => none
  | b :: bs => some ((b :: bs).map areaOfBox)

/-- Shallow embedding of the decomposition in `PennFudanDataset.__getitem__`:
`obj_ids = np.unique(mask)[1:]`, per-id boolean masks, per-id min/max
bounding boxes, constant labels `1`, the area line, constant `iscrowd` `0`. -/
def decomposeSrc (g : Grid) : Option SrcResult :=
  match bboxes g ((uniqueSorted g).tail) with
  | none => none
  | some boxes =>
    match areaLine boxes with
    | none => none
    | some area =>
      some { objIds := (uniqueSorted g).tail
             masks := ((uniqueSorted g).tail).map (maskOf g)
             boxes := boxes
             labels := List.replicate ((uniqueSorted g).tail).length 1
             area := area
             iscrowd := List.replicate ((uniqueSorted g).tail).length 0 }

/-! ### Properties of `uniqueSorted` (the embedding of `np.unique`) -/

theorem mem_insertUnique {a x : Nat} {l : List Nat} :
    a ∈ insertUnique x l ↔ a = x ∨ a ∈ l := by
  induction l with
  | nil => simp [insertUnique]
  | cons y ys ih =>
    simp only [insertUnique]
    split
    · next hxy => subst hxy; simp [List.mem_cons]
    · split
      · simp [List.mem_cons]
      · simp only [List.mem_cons, ih]; tauto

theorem sorted_insertUnique {x : Nat} {l : List Nat} (h : l.Sorted (· < ·)) :
    (insertUnique x l).Sorted (· < ·) := by
  induction l with
  | nil => simp [insertUnique]
  | cons y ys ih =>
    rw [List.sorted_cons] at h
    obtain ⟨hy, hys⟩ := h
    simp only [insertUnique]
    split
    · exact List.sorted_cons.mpr ⟨hy, hys⟩
    · split
      · next hne hlt =>
        refine List.sorted_cons.mpr ⟨?_, List.sorted_cons.mpr ⟨hy, hys⟩⟩
        intro b hb
        rcases List.mem_cons.mp hb with rfl | hb
        · exact hlt
        · exact lt_trans hlt (hy b hb)
      · next hne hnlt =>
        refine List.sorted_cons.mpr ⟨?_, ih hys⟩
        intro b hb
        rcases mem_insertUnique.mp hb with rfl | hb
        · omega
        · exact hy b hb

theorem sorted_uniqueSorted (g : Grid) : (uniqueSorted g).Sorted (· < ·) := by
  unfold uniqueSorted
  induction g.flatten with
  | nil => simp
  | cons x xs ih => exact sorted_insertUnique ih

theorem mem_uniqueSorted {v : Nat} {g : Grid} : v ∈ uniqueSorted g ↔ v ∈ g.flatten := by
  unfold uniqueSorted
  induction g.flatten with
  | nil => simp
  | cons x xs ih => simp only [List.foldr_cons, mem_insertUnique, ih, List.mem_cons]

/-! ### Characterisation of `truePositions` (the embedding of `np.where`) -/

theorem mem_idxFrom {α : Type} {l : List α} {j : Nat} {p : Nat × α} :
    p ∈ idxFrom j l ↔ ∃ k, p.1 = j + k ∧ l[k]? = some p.2 := by
  induction l generalizing j with
  | nil => simp [idxFrom]
  | cons x xs ih =>
    obtain ⟨p1, p2⟩ := p
    simp only [idxFrom, List.mem_cons, ih]
    constructor
    · rintro (h | ⟨k, hk, hget⟩)
      · injection h with h1 h2
        exact ⟨0, by omega, by simp [h2]⟩
      · exact ⟨k + 1, by omega, by simpa using hget⟩
    · rintro ⟨k, hk, hget⟩
      cases k with
      | zero =>
        left
        simp only [List.getElem?_cons_zero, Option.some.injEq] at hget
        have h1 : p1 = j := by omega
        rw [h1, hget]
      | succ k =>
        right
        exact ⟨k, by omega, by simpa using hget⟩

theorem mem_truePositions {m : List (List Bool)} {r c : Nat} :
    (r, c) ∈ truePositions m ↔ ∃ row, m[r]? = some row ∧ row[c]? = some true := by
  unfold truePositions
  rw [List.mem_flatMap]
  constructor
  · rintro ⟨⟨r', row⟩, hrow, hpos⟩
    obtain ⟨⟨c', b⟩, hcb, hif⟩ := List.mem_filterMap.mp hpos
    by_cases hb : b = true
    · subst hb
      simp only [if_true, Option.some.injEq, Prod.mk.injEq] at hif
      obtain ⟨hr, hc⟩ := hif
      subst hr; subst hc
      obtain ⟨k, hk, hget⟩ := mem_idxFrom.mp hrow
      obtain ⟨k', hk', hget'⟩ := mem_idxFrom.mp hcb
      simp only [Nat.zero_add] at hk hk'
      exact ⟨row, by rw [hk]; exact hget, by rw [hk']; exact hget'⟩
    · simp [hb] at hif
  · rintro ⟨row, hrow, hc⟩
    refine ⟨(r, row), mem_idxFrom.mpr ⟨r, by omega, hrow⟩, ?_⟩
    exact List.mem_filterMap.mpr ⟨(c, true), mem_idxFrom.mpr ⟨c, by omega, hc⟩, by simp⟩

theorem maskOf_getElem {g : Grid} {v r : Nat} :
    (maskOf g v)[r]? = (g[r]?).map (fun row => row.map (fun p => p == v)) := by
  unfold maskOf
  exact List.getElem?_map _ _ _

theorem maskTrue_iff_pixel {g : Grid} {v r c : Nat} :
    (∃ row, (maskOf g v)[r]? = some row ∧ row[c]? = some true) ↔
    (∃ prow, g[r]? = some prow ∧ prow[c]? = some v) := by
  rw [maskOf_getElem]
  constructor
  · rintro ⟨row, hrow, hc⟩
    cases hg : g[r]? with
    | none => rw [hg] at hrow; simp at hrow
    | some prow =>
      rw [hg] at hrow
      simp only [Option.map_some', Option.some.injEq] at hrow
      subst hrow
      rw [List.getElem?_map] at hc
      cases hp : prow[c]? with
      | none => rw [hp] at hc; simp at hc
      | some p =>
        rw [hp] at hc
        simp only [Option.map_some', Option.some.injEq, beq_iff_eq] at hc
        exact ⟨prow, rfl, by rw [hp, hc]⟩
  · rintro ⟨prow, hrow, hc⟩
    refine ⟨prow.map (fun p => p == v), by rw [hrow]; rfl, ?_⟩
    rw [List.getElem?_map, hc]
    simp

theorem truePositions_maskOf_ne_nil {g : Grid} {v : Nat} (h : v ∈ g.flatten) :
    truePositions (maskOf g v) ≠ [] := by
  obtain ⟨row, hrowmem, hv⟩ := List.mem_flatten.mp h
  obtain ⟨r, hr⟩ := List.mem_iff_getElem?.mp hrowmem
  obtain ⟨c, hc⟩ := List.mem_iff_getElem?.mp hv
  intro hnil
  have hmem : (r, c) ∈ truePositions (maskOf g v) :=
    mem_truePositions.mpr (maskTrue_iff_pixel.mpr ⟨row, hr, hc⟩)
  rw [hnil] at hmem
  exact absurd hmem (List.not_mem_nil _)

/-! ### Min/max folds (the embedding of `np.min` / `np.max`) -/

theorem listMin_le {x : Nat} {xs : List Nat} : ∀ y ∈ x :: xs, listMin x xs ≤ y := by
  induction xs generalizing x with
  | nil =>
    intro y hy
    rw [List.mem_singleton] at hy
    subst hy
    exact le_refl _
  | cons z zs ih =>
    intro y hy
    have step : listMin x (z :: zs) = listMin (min x z) zs := rfl
    rw [step]
    rcases List.mem_cons.mp hy with rfl | h
    · calc listMin (min y z) zs ≤ min y z := ih _ (List.mem_cons_self _ _)
        _ ≤ y := min_le_left _ _
    · rcases List.mem_cons.mp h with rfl | h2
      · calc listMin (min x y) zs ≤ min x y := ih _ (List.mem_cons_self _ _)
          _ ≤ y := min_le_right _ _
      · exact ih _ (List.mem_cons_of_mem _ h2)

theorem listMin_mem {x : Nat} {xs : List Nat} : listMin x xs ∈ x :: xs := by
  induction xs generalizing x with
  | nil => exact List.mem_cons_self _ _
  | cons z zs ih =>
    have step : listMin x (z :: zs) = listMin (min x z) zs := rfl
    rw [step]
    rcases List.mem_cons.mp (ih (x := min x z)) with heq | h
    · rw [heq]
      rcases le_total x z with hle | hle
      · rw [min_eq_left hle]; exact List.mem_cons_self _ _
      · rw [min_eq_right hle]; exact List.mem_cons_of_mem _ (List.mem_cons_self _ _)
    · exact List.mem_cons_of_mem _ (List.mem_cons_of_mem _ h)

theorem le_listMax {x : Nat} {xs : List Nat} : ∀ y ∈ x :: xs, y ≤ listMax x xs := by
  induction xs generalizing x with
  | nil =>
    intro y hy
    rw [List.mem_singleton] at hy
    subst hy
    exact le_refl _
  | cons z zs ih =>
    intro y hy
    have step : listMax x (z :: zs) = listMax (max x z) zs := rfl
    rw [step]
    rcases List.mem_cons.mp hy with rfl | h
    · calc y ≤ max y z := le_max_left _ _
        _ ≤ listMax (max y z) zs := ih _ (List.mem_cons_self _ _)
    · rcases List.mem_cons.mp h with rfl | h2
      · calc y ≤ max x y := le_max_right _ _
          _ ≤ listMax (max x y) zs := ih _ (List.mem_cons_self _ _)
      · exact ih _ (List.mem_cons_of_mem _ h2)

theorem listMax_mem {x : Nat} {xs : List Nat} : listMax x xs ∈ x :: xs := by
  induction xs generalizing x with
  | nil => exact List.mem_cons_self _ _
  | cons z zs ih =>
    have step : listMax x (z :: zs) = listMax (max x z) zs := rfl
    rw [step]
    rcases List.mem_cons.mp (ih (x := max x z)) with heq | h
    · rw [heq]
      rcases le_total x z with hle | hle
      · rw [max_eq_right hle]; exact List.mem_cons_of_mem _ (List.mem_cons_self _ _)
      · rw [max_eq_left hle]; exact List.mem_cons_self _ _
    · exact List.mem_cons_of_mem _ (List.mem_cons_of_mem _ h)

theorem listMin_le_f {α : Type} (f : α → Nat) (p : α) (ps : List α) :
    ∀ q ∈ p :: ps, listMin (f p) (ps.map f) ≤ f q := by
  intro q hq
  refine listMin_le _ ?_
  rcases List.mem_cons.mp hq with rfl | h
  · exact List.mem_cons_self _ _
  · exact List.mem_cons_of_mem _ (List.mem_map_of_mem f h)

theorem le_listMax_f {α : Type} (f : α → Nat) (p : α) (ps : List α) :
    ∀ q ∈ p :: ps, f q ≤ listMax (f p) (ps.map f) := by
  intro q hq
  refine le_listMax _ ?_
  rcases List.mem_cons.mp hq with rfl | h
  · exact List.mem_cons_self _ _
  · exact List.mem_cons_of_mem _ (List.mem_map_of_mem f h)

theorem exists_f_eq_listMin {α : Type} (f : α → Nat) (p : α) (ps : List α) :
    ∃ q ∈ p :: ps, f q = listMin (f p) (ps.map f) := by
  rcases List.mem_cons.mp (@listMin_mem (f p) (ps.map f)) with heq | h
  · exact ⟨p, List.mem_cons_self _ _, heq.symm⟩
  · obtain ⟨q, hq, hfq⟩ := List.mem_map.mp h
    exact ⟨q, List.mem_cons_of_mem _ hq, hfq⟩

theorem exists_f_eq_listMax {α : Type} (f : α → Nat) (p : α) (ps : List α) :
    ∃ q ∈ p :: ps, f q = listMax (f p) (ps.map f) := by
  rcases List.mem_cons.mp (@listMax_mem (f p) (ps.map f)) with heq | h
  · exact ⟨p, List.mem_cons_self _ _, heq.symm⟩
  · obtain ⟨q, hq, hfq⟩ := List.mem_map.mp h
    exact ⟨q, List.mem_cons_of_mem _ hq, hfq⟩

/-! ### Characterisation of `bboxOf` -/

theorem bboxOf_spec {g : Grid} {v : Nat} {b : Box} (h : bboxOf g v = some b) :
    (∀ p ∈ truePositions (maskOf g v),
        b.xmin ≤ p.2 ∧ p.2 ≤ b.xmax ∧ b.ymin ≤ p.1 ∧ p.1 ≤ b.ymax) ∧
    (∃ p ∈ truePositions (maskOf g v), p.2 = b.xmin) ∧
    (∃ p ∈ truePositions (maskOf g v), p.2 = b.xmax) ∧
    (∃ p ∈ truePositions (maskOf g v), p.1 = b.ymin) ∧
    (∃ p ∈ truePositions (maskOf g v), p.1 = b.ymax) := by
  unfold bboxOf at h
  split at h
  · exact absurd h (by simp)
  · next p ps heq =>
    rw [heq]
    injection h with h
    subst h
    refine ⟨?_, ?_, ?_, ?_, ?_⟩
    · intro q hq
      exact ⟨listMin_le_f Prod.snd p ps q hq, le_listMax_f Prod.snd p ps q hq,
        listMin_le_f Prod.fst p ps q hq, le_listMax_f Prod.fst p ps q hq⟩
    · exact exists_f_eq_listMin Prod.snd p ps
    · exact exists_f_eq_listMax Prod.snd p ps
    · exact exists_f_eq_listMin Prod.fst p ps
    · exact exists_f_eq_listMax Prod.fst p ps

theorem bboxOf_isSome {g : Grid} {v : Nat} (h : v ∈ g.flatten) :
    ∃ b, bboxOf g v = some b := by
  unfold bboxOf
  split
  · next hnil => exact absurd hnil (truePositions_maskOf_ne_nil h)
  · exact ⟨_, rfl⟩

/-! ### Structure of `bboxes` and `decomposeSrc` -/

theorem bboxes_cons {g : Grid} {v : Nat} {vs : List Nat} {bs : List Box}
    (h : bboxes g (v :: vs) = some bs) :
    ∃ b bs', bboxOf g v = some b ∧ bboxes g vs = some bs' ∧ bs = b :: bs' := by
  unfold bboxes at h
  cases hb : bboxOf g v with
  | none => rw [hb] at h; exact absurd h (by simp)
  | some b =>
    cases hbs : bboxes g vs with
    | none => rw [hb, hbs] at h; exact absurd h (by simp)
    | some bs' =>
      rw [hb, hbs] at h
      injection h with h
      exact ⟨b, bs', rfl, rfl, h.symm⟩

theorem bboxes_isSome {g : Grid} {vs : List Nat}
    (h : ∀ v ∈ vs, ∃ b, bboxOf g v = some b) : ∃ bs, bboxes g vs = some bs := by
  induction vs with
  | nil => exact ⟨[], rfl⟩
  | cons v vs ih =>
    obtain ⟨b, hb⟩ := h v (List.mem_cons_self _ _)
    obtain ⟨bs, hbs⟩ := ih (fun w hw => h w (List.mem_cons_of_mem _ hw))
    exact ⟨b :: bs, by unfold bboxes; rw [hb, hbs]⟩

theorem bboxes_length {g : Grid} {vs : List Nat} {bs : List Box}
    (h : bboxes g vs = some bs) : bs.length = vs.length := by
  induction vs generalizing bs with
  | nil =>
    unfold bboxes at h
    injection h with h
    subst h
    rfl
  | cons v vs ih =>
    obtain ⟨b, bs', _, hbs', rfl⟩ := bboxes_cons h
    simp [ih hbs']

theorem bboxes_getElem {g : Grid} {vs : List Nat} {bs : List Box}
    (h : bboxes g vs = some bs) :
    ∀ (i : Nat) (v : Nat), vs[i]? = some v → bboxOf g v = bs[i]? := by
  induction vs generalizing bs with
  | nil => intro i v hv; simp at hv
  | cons w vs ih =>
    obtain ⟨b, bs', hb, hbs', rfl⟩ := bboxes_cons h
    intro i v hv
    cases i with
    | zero =>
      simp only [List.getElem?_cons_zero, Option.some.injEq] at hv
      subst hv
      simpa using hb
    | succ i =>
      simp only [List.getElem?_cons_succ] at hv ⊢
      exact ih hbs' i v hv

theorem decomposeSrc_eq {g : Grid} {r : SrcResult} (h : decomposeSrc g = some r) :
    ∃ bs, bboxes g ((uniqueSorted g).tail) = some bs ∧ bs ≠ [] ∧
      r = { objIds := (uniqueSorted g).tail
            masks := ((uniqueSorted g).tail).map (maskOf g)
            boxes := bs
            labels := List.replicate ((uniqueSorted g).tail).length 1
            area := bs.map areaOfBox
            iscrowd := List.replicate ((uniqueSorted g).tail).length 0 } := by
  unfold decomposeSrc at h
  cases hbs : bboxes g ((uniqueSorted g).tail) with
  | none => rw [hbs] at h; exact absurd h (by simp)
  | some bs =>
    rw [hbs] at h
    cases bs with
    | nil => exact absurd h (by simp [areaLine])
    | cons b bs' =>
      simp only [areaLine] at h
      injection h with h
      exact ⟨b :: bs', rfl, by simp, h.symm⟩

theorem tail_uniqueSorted_present {g : Grid} {v : Nat}
    (h : v ∈ (uniqueSorted g).tail) : v ∈ g.flatten :=
  mem_uniqueSorted.mp (List.tail_subset _ h)

/-- The source's decomposition raises exactly when the id list left by the
`[1:]` slice is empty: each surviving id is present in the grid, so every
`np.min`/`np.max` sees a non-empty coordinate list; the only failing step
is the area line's 2-D indexing of an empty `boxes` tensor. -/
theorem decomposeSrc_none_iff {g : Grid} :
    decomposeSrc g = none ↔ (uniqueSorted g).tail = [] := by
  constructor
  · intro h
    by_contra hne
    obtain ⟨bs, hbs⟩ := bboxes_isSome
      (fun v hv => bboxOf_isSome (tail_uniqueSorted_present (g := g) hv))
    have hlen := bboxes_length hbs
    unfold decomposeSrc at h
    rw [hbs] at h
    cases bs with
    | nil => exact hne (List.length_eq_zero.mp hlen.symm)
    | cons b bs' => simp [areaLine] at h
  · intro h
    unfold decomposeSrc
    rw [h]
    rfl

/-- The mask `m` is true at row `rr`, column `cc`. -/
def maskTrueAt (m : List (List Bool)) (rr cc : Nat) : Prop :=
  ∃ row, m[rr]? = some row ∧ row[cc]? = some true

theorem bboxes_getElem_rev {g : Grid} {vs : List Nat} {bs : List Box}
    (h : bboxes g vs = some bs) :
    ∀ (i : Nat) (b : Box), bs[i]? = some b → ∃ v, vs[i]? = some v ∧ bboxOf g v = some b := by
  induction vs generalizing bs with
  | nil =>
    unfold bboxes at h
    injection h with h
    subst h
    intro i b hb
    simp at hb
  | cons w vs ih =>
    obtain ⟨b0, bs', hb0, hbs', rfl⟩ := bboxes_cons h
    intro i b hb
    cases i with
    | zero =>
      simp only [List.getElem?_cons_zero, Option.some.injEq] at hb
      subst hb
      exact ⟨w, by simp, hb0⟩
    | succ i =>
      simp only [List.getElem?_cons_succ] at hb ⊢
      exact ih hbs' i b hb

/-! ### Claim theorems over the source embedding -/

/-- C2 (code bug): on a label image in which every pixel equals 0,
`np.unique` yields `[0]` (or `[]`), the `[1:]` slice leaves no ids, the
`boxes` list stays empty, and the source raises IndexError at the area
line (`torch.as_tensor([])` is 1-D, `boxes[:, 3]` is 2-D indexing): the
call fails instead of returning the claimed zero-instance result. -/
theorem decomposeSrc_all_zero_raises {g : Grid} (h : ∀ row ∈ g, ∀ p ∈ row, p = 0) :
    decomposeSrc g = none := by
  have hall : ∀ v ∈ uniqueSorted g, v = 0 := by
    intro v hv
    obtain ⟨row, hrow, hvrow⟩ := List.mem_flatten.mp (mem_uniqueSorted.mp hv)
    exact h row hrow v hvrow
  have htail : (uniqueSorted g).tail = [] := by
    cases hu : uniqueSorted g with
    | nil => rfl
    | cons a l =>
      cases l with
      | nil => rfl
      | cons x l' =>
        exfalso
        have ha : a = 0 := hall a (by rw [hu]; exact List.mem_cons_self _ _)
        have hx : x = 0 := hall x (by
          rw [hu]; exact List.mem_cons_of_mem _ (List.mem_cons_self _ _))
        have hs := sorted_uniqueSorted g
        rw [hu, List.sorted_cons] at hs
        have := hs.1 x (List.mem_cons_self _ _)
        omega
  exact decomposeSrc_none_iff.mpr htail

/-- Witness for C2 at a concrete all-zero 2×2 grid. -/
theorem decomposeSrc_all_zero_raises_concrete :
    decomposeSrc [[0, 0], [0, 0]] = none :=
  decomposeSrc_all_zero_raises (by decide)

/-- C3: for every instance the source emits, the box is the min/max extent
of the instance's mask: every true pixel lies inside the box, each of the
four bounds is attained by a true pixel, and the box is consistent. -/
theorem decomposeSrc_bbox_tight {g : Grid} {r : SrcResult} {i : Nat} {b : Box}
    {m : List (List Bool)} (h : decomposeSrc g = some r)
    (hb : r.boxes[i]? = some b) (hm : r.masks[i]? = some m) :
    (∀ rr cc, maskTrueAt m rr cc →
        b.xmin ≤ cc ∧ cc ≤ b.xmax ∧ b.ymin ≤ rr ∧ rr ≤ b.ymax) ∧
    (∃ rr, maskTrueAt m rr b.xmin) ∧ (∃ rr, maskTrueAt m rr b.xmax) ∧
    (∃ cc, maskTrueAt m b.ymin cc) ∧ (∃ cc, maskTrueAt m b.ymax cc) ∧
    b.xmin ≤ b.xmax ∧ b.ymin ≤ b.ymax := by
  obtain ⟨bs, hbs, hbne, rfl⟩ := decomposeSrc_eq h
  simp only at hb hm
  obtain ⟨v, hv, hmv⟩ : ∃ v, ((uniqueSorted g).tail)[i]? = some v ∧ maskOf g v = m := by
    rw [List.getElem?_map] at hm
    cases hid : ((uniqueSorted g).tail)[i]? with
    | none => rw [hid] at hm; simp at hm
    | some v =>
      rw [hid] at hm
      simp only [Option.map_some', Option.some.injEq] at hm
      exact ⟨v, rfl, hm⟩
  have hbox : bboxOf g v = some b := by
    obtain ⟨v', hv', hbox'⟩ := bboxes_getElem_rev hbs i b hb
    rw [hv] at hv'
    injection hv' with hv'
    rw [hv']
    exact hbox'
  obtain ⟨hbound, hxmin, hxmax, hymin, hymax⟩ := bboxOf_spec hbox
  subst hmv
  have hAt : ∀ p ∈ truePositions (maskOf g v), maskTrueAt (maskOf g v) p.1 p.2 := by
    intro p hp
    obtain ⟨pr, pc⟩ := p
    exact mem_truePositions.mp hp
  have hAt' : ∀ rr cc, maskTrueAt (maskOf g v) rr cc →
      (rr, cc) ∈ truePositions (maskOf g v) := fun rr cc hx => mem_truePositions.mpr hx
  refine ⟨?_, ?_, ?_, ?_, ?_, ?_, ?_⟩
  · intro rr cc hx
    exact hbound (rr, cc) (hAt' rr cc hx)
  · obtain ⟨p, hp, he⟩ := hxmin
    exact ⟨p.1, he ▸ hAt p hp⟩
  · obtain ⟨p, hp, he⟩ := hxmax
    exact ⟨p.1, he ▸ hAt p hp⟩
  · obtain ⟨p, hp, he⟩ := hymin
    exact ⟨p.2, he ▸ hAt p hp⟩
  · obtain ⟨p, hp, he⟩ := hymax
    exact ⟨p.2, he ▸ hAt p hp⟩
  · obtain ⟨p, hp, he⟩ := hxmin
    exact he ▸ (hbound p hp).2.1
  · obtain ⟨p, hp, he⟩ := hymin
    exact he ▸ (hbound p hp).2.2.2

/-- Witness for C3 at the 3×3 example grid, instance 0. -/
theorem decomposeSrc_bbox_tight_concrete :
    ∃ r, decomposeSrc [[0, 0, 1], [0, 1, 1], [2, 2, 0]] = some r ∧
      ∃ b m, r.boxes[0]? = some b ∧ r.masks[0]? = some m ∧
        (∃ rr, maskTrueAt m rr b.xmin) := by
  refine ⟨⟨[1, 2],
      [[[false, false, true], [false, true, true], [false, false, false]],
       [[false, false, false], [false, false, false], [true, true, false]]],
      [⟨1, 0, 2, 1⟩, ⟨0, 2, 1, 2⟩], [1, 1], [1, 0], [0, 0]⟩, by decide, ?_⟩
  refine ⟨⟨1, 0, 2, 1⟩, [[false, false, true], [false, true, true], [false, false, false]],
    by decide, by decide, ?_⟩
  exact (decomposeSrc_bbox_tight (g := [[0, 0, 1], [0, 1, 1], [2, 2, 0]])
    (r := ⟨[1, 2],
      [[[false, false, true], [false, true, true], [false, false, false]],
       [[false, false, false], [false, false, false], [true, true, false]]],
      [⟨1, 0, 2, 1⟩, ⟨0, 2, 1, 2⟩], [1, 1], [1, 0], [0, 0]⟩)
    (i := 0) (b := ⟨1, 0, 2, 1⟩)
    (m := [[false, false, true], [false, true, true], [false, false, false]])
    (by decide) (by decide) (by decide)).2.1

/-- C4: the reported area of every instance equals the box area
`(xmax - xmin) * (ymax - ymin)` exactly (the source multiplies the two
factors in the other order; over the integers the products coincide, and
both differences are non-negative because the box is a min/max extent). -/
theorem decomposeSrc_area_identity {g : Grid} {r : SrcResult} {i : Nat} {b : Box}
    (h : decomposeSrc g = some r) (hb : r.boxes[i]? = some b) :
    r.area[i]? = some (areaOfBox b) ∧
    (areaOfBox b : Int) = ((b.xmax : Int) - (b.xmin : Int)) * ((b.ymax : Int) - (b.ymin : Int)) := by
  obtain ⟨bs, hbs, hbne, rfl⟩ := decomposeSrc_eq h
  simp only at hb ⊢
  constructor
  · rw [List.getElem?_map, hb]
    rfl
  · obtain ⟨v, hv, hbox⟩ := bboxes_getElem_rev hbs i b hb
    obtain ⟨_, _, hxmax, _, hymax⟩ := bboxOf_spec hbox
    obtain ⟨px, hpx, hex⟩ := hxmax
    obtain ⟨py, hpy, hey⟩ := hymax
    obtain ⟨hboundx, _, _, _⟩ := bboxOf_spec hbox
    have hx : b.xmin ≤ b.xmax := hex ▸ (hboundx px hpx).1
    have hy : b.ymin ≤ b.ymax := hey ▸ (hboundx py hpy).2.2.1
    unfold areaOfBox
    push_cast [Nat.cast_sub hx, Nat.cast_sub hy]
    ring

/-- Witness for C4 at the 3×3 example grid, instance 1. -/
theorem decomposeSrc_area_identity_concrete :
    ∃ r, decomposeSrc [[0, 0, 1], [0, 1, 1], [2, 2, 0]] = some r ∧
      r.area[1]? = some (areaOfBox ⟨0, 2, 1, 2⟩) := by
  refine ⟨⟨[1, 2],
      [[[false, false, true], [false, true, true], [false, false, false]],
       [[false, false, false], [false, false, false], [true, true, false]]],
      [⟨1, 0, 2, 1⟩, ⟨0, 2, 1, 2⟩], [1, 1], [1, 0], [0, 0]⟩, by decide, ?_⟩
  exact (decomposeSrc_area_identity (g := [[0, 0, 1], [0, 1, 1], [2, 2, 0]])
    (r := ⟨[1, 2],
      [[[false, false, true], [false, true, true], [false, false, false]],
       [[false, false, false], [false, false, false], [true, true, false]]],
      [⟨1, 0, 2, 1⟩, ⟨0, 2, 1, 2⟩], [1, 1], [1, 0], [0, 0]⟩)
    (i := 1) (b := ⟨0, 2, 1, 2⟩) (by decide) (by decide)).1

/-- C5: the instances emitted by the source are ordered by strictly
ascending original label value, for every input grid: `np.unique` returns
a sorted duplicate-free array and slicing preserves that order. -/
theorem decomposeSrc_ordering {g : Grid} {r : SrcResult}
    (h : decomposeSrc g = some r) : r.objIds.Sorted (· < ·) := by
  obtain ⟨bs, hbs, hbne, rfl⟩ := decomposeSrc_eq h
  simp only
  exact List.Pairwise.sublist (List.tail_sublist _) (sorted_uniqueSorted g)

/-- Witness for C5 at the 3×3 example grid. -/
theorem decomposeSrc_ordering_concrete :
    ∃ r, decomposeSrc [[0, 0, 1], [0, 1, 1], [2, 2, 0]] = some r ∧
      r.objIds.Sorted (· < ·) :=
  ⟨⟨[1, 2],
      [[[false, false, true], [false, true, true], [false, false, false]],
       [[false, false, false], [false, false, false], [true, true, false]]],
      [⟨1, 0, 2, 1⟩, ⟨0, 2, 1, 2⟩], [1, 1], [1, 0], [0, 0]⟩, by decide,
    decomposeSrc_ordering (g := [[0, 0, 1], [0, 1, 1], [2, 2, 0]])
      (r := ⟨[1, 2],
      [[[false, false, true], [false, true, true], [false, false, false]],
       [[false, false, false], [false, false, false], [true, true, false]]],
      [⟨1, 0, 2, 1⟩, ⟨0, 2, 1, 2⟩], [1, 1], [1, 0], [0, 0]⟩) (by decide)⟩

/-- C10: all output components the source builds have the same first
dimension (the number of enumerated ids), and each mask has exactly the
input grid's height and the input's per-row widths. -/
theorem decomposeSrc_shapes {g : Grid} {r : SrcResult}
    (h : decomposeSrc g = some r) :
    r.masks.length = r.objIds.length ∧
    r.boxes.length = r.objIds.length ∧
    r.labels.length = r.objIds.length ∧
    r.area.length = r.objIds.length ∧
    r.iscrowd.length = r.objIds.length ∧
    ∀ m ∈ r.masks, m.length = g.length ∧
      ∀ (i : Nat), (m[i]?).map List.length = (g[i]?).map List.length := by
  obtain ⟨bs, hbs, hbne, rfl⟩ := decomposeSrc_eq h
  simp only
  refine ⟨List.length_map _ _, bboxes_length hbs, List.length_replicate _ _,
    by rw [List.length_map]; exact bboxes_length hbs, List.length_replicate _ _, ?_⟩
  intro m hm
  obtain ⟨v, _, rfl⟩ := List.mem_map.mp hm
  refine ⟨List.length_map _ _, ?_⟩
  intro i
  rw [maskOf_getElem]
  cases g[i]? with
  | none => rfl
  | some row => simp [List.length_map]

/-- Witness for C10 at the 3×3 example grid. -/
theorem decomposeSrc_shapes_concrete :
    ∃ r, decomposeSrc [[0, 0, 1], [0, 1, 1], [2, 2, 0]] = some r ∧
      r.masks.length = r.objIds.length :=
  ⟨⟨[1, 2],
      [[[false, false, true], [false, true, true], [false, false, false]],
       [[false, false, false], [false, false, false], [true, true, false]]],
      [⟨1, 0, 2, 1⟩, ⟨0, 2, 1, 2⟩], [1, 1], [1, 0], [0, 0]⟩, by decide,
    (decomposeSrc_shapes (g := [[0, 0, 1], [0, 1, 1], [2, 2, 0]])
      (r := ⟨[1, 2],
      [[[false, false, true], [false, true, true], [false, false, false]],
       [[false, false, false], [false, false, false], [true, true, false]]],
      [⟨1, 0, 2, 1⟩, ⟨0, 2, 1, 2⟩], [1, 1], [1, 0], [0, 0]⟩) (by decide)).1⟩

/-- C1 (code bug): on the 1×1 grid `[[5]]`, which holds no background
pixel, the source's unconditional `np.unique(mask)[1:]` slice drops the
smallest (and only) positive value 5, leaving an empty id list; the call
then raises IndexError at the area line (empty `boxes` is a 1-D tensor).
Either way, no instance is produced for the present positive value 5. -/
theorem decomposeSrc_drops_smallest_without_background :
    5 ∈ uniqueSorted [[5]] ∧ (0 ∉ ([[5]] : Grid).flatten) ∧
    decomposeSrc [[5]] = none := by decide

/-- C8 (code bug): on the 1×1-row grid `[[1, 2]]` the pixel at `(0, 0)`
holds the non-zero value 1, yet the source emits a single instance (for
value 2) whose mask is false at `(0, 0)`: the value 1 was consumed by the
`[1:]` slice, so this non-zero pixel belongs to no instance's mask. -/
theorem decomposeSrc_uncovered_pixel :
    (([[1, 2]] : Grid)[0]?).map (fun row => row[0]?) = some (some 1) ∧
    decomposeSrc [[1, 2]] =
      some ⟨[2], [[[false, true]]], [⟨1, 0, 1, 0⟩], [1], [0], [0]⟩ := by decide

/-- C9 (counterexample): on the 3×3 example grid the source does not report
area 1 for both instances — the second instance (label 2, a single-row
component) gets area 0 from `(ymax - ymin) * (xmax - xmin)`. -/
theorem decomposeSrc_example_area_mismatch :
    (decomposeSrc [[0, 0, 1], [0, 1, 1], [2, 2, 0]]).map SrcResult.area ≠
      some [1, 1] := by decide

/-- C9 (amended): the full decomposition of the 3×3 example grid: instances
for labels 1 and 2 with the masks and boxes stated in the claim, but with
area 0 (not 1) for label 2. -/
theorem decomposeSrc_example :
    decomposeSrc [[0, 0, 1], [0, 1, 1], [2, 2, 0]] =
      some ⟨[1, 2],
        [[[false, false, true], [false, true, true], [false, false, false]],
         [[false, false, false], [false, false, false], [true, true, false]]],
        [⟨1, 0, 2, 1⟩, ⟨0, 2, 1, 2⟩], [1, 1], [1, 0], [0, 0]⟩ := by decide

/-! ### The spec's validated decomposer

The notebook contains no explicit error handling; the spec's §4.1/§7
reimplementation adds an input-validation and error layer
(`EmptyLabelImageError`, `InconsistentLabelError`).  That layer is
modelled here from the spec's words and the claims about it are settled
against this model. -/

/-- Modelled from the spec: the error taxonomy of §7, which is absent from
the notebook source — `EmptyLabelImageError` (grid has zero rows or zero
columns) and `InconsistentLabelError` (a scanned label value yields zero
matching pixels during the mask pass). -/
inductive DecomposeError where
  | emptyLabelImage
  | inconsistentLabel
deriving Repr, DecidableEq

/-- Modelled from the spec: an `Instance` of §3 — original label value,
binary mask, tight bbox, box area, class label, crowd flag. -/
structure Instance where
  id : Nat
  mask : List (List Bool)
  bbox : Box
  area : Nat
  label : Nat
  isCrowd : Bool
deriving Repr, DecidableEq

/-- Modelled from the spec: the `DecompositionResult` of §3 — the ordered
instance sequence plus the originating image's dimensions. -/
structure DecompositionResult where
  instances : List Instance
  height : Nat
  width : Nat
deriving Repr, DecidableEq

/-- Number of rows of a grid (H). -/
def gridHeight (g : Grid) : Nat := g.length

/-- Number of columns of a grid (W), read off the first row. -/
def gridWidth (g : Grid) : Nat := (g.head?.getD []).length

/-- Modelled from the spec: steps 4–6 of §4.1 for one label value —
find the true positions of `mask_v`, fail with `InconsistentLabelError`
if there are none, otherwise take the min/max extent and the box area. -/
def specInstanceOf (g : Grid) (v : Nat) : Except DecomposeError Instance :=
  match truePositions (maskOf g v) with
  | [] => Except.error DecomposeError.inconsistentLabel
  | p :: ps =>
    let b : Box :=
      { xmin := listMin p.2 (ps.map Prod.snd)
        ymin := listMin p.1 (ps.map Prod.fst)
        xmax := listMax p.2 (ps.map Prod.snd)
        ymax := listMax p.1 (ps.map Prod.fst) }
    Except.ok { id := v, mask := maskOf g v, bbox := b,
                area := (b.xmax - b.xmin) * (b.ymax - b.ymin),
                label := 1, isCrowd := false }

/-- Modelled from the spec: the per-label mask pass of §4.1 steps 3–7,
taken over an explicitly supplied value list (the spec's test scenario 5
constructs this list inconsistently with the grid on purpose). -/
def maskPass (g : Grid) : List Nat → Except DecomposeError (List Instance)
  | [] => Except.ok []
  | v :: vs =>
    match specInstanceOf g v with
    | Except.error e => Except.error e
    | Except.ok inst =>
      match maskPass g vs with
      | Except.error e => Except.error e
      | Except.ok rest => Except.ok (inst :: rest)

/-- Modelled from the spec: `decompose` of §4.1 — fail with
`EmptyLabelImageError` if H=0 or W=0, otherwise scan the distinct values,
remove 0 if present, and run the mask pass over the remainder in
ascending order. -/
def decompose (g : Grid) : Except DecomposeError DecompositionResult :=
  if gridHeight g = 0 ∨ gridWidth g = 0 then
    Except.error DecomposeError.emptyLabelImage
  else
    match maskPass g ((uniqueSorted g).filter (fun v => v != 0)) with
    | Except.error e => Except.error e
    | Except.ok insts =>
      Except.ok { instances := insts, height := gridHeight g, width := gridWidth g }

theorem maskPass_ok_of_present {g : Grid} {vs : List Nat}
    (h : ∀ v ∈ vs, truePositions (maskOf g v) ≠ []) :
    ∃ insts, maskPass g vs = Except.ok insts := by
  induction vs with
  | nil => exact ⟨[], rfl⟩
  | cons v vs ih =>
    obtain ⟨rest, hrest⟩ := ih (fun w hw => h w (List.mem_cons_of_mem _ hw))
    have hv := h v (List.mem_cons_self _ _)
    unfold maskPass specInstanceOf
    cases hps : truePositions (maskOf g v) with
    | nil => exact absurd hps hv
    | cons p ps =>
      rw [hrest]
      exact ⟨_, rfl⟩


/-- C6: the spec's `decompose` fails with `EmptyLabelImageError` exactly
when the grid has zero rows or zero columns; on non-degenerate grids the
mask pass can only fail with the other error, so the equivalence is
strict. -/
theorem decompose_empty_iff (g : Grid) :
    decompose g = Except.error DecomposeError.emptyLabelImage ↔
      gridHeight g = 0 ∨ gridWidth g = 0 := by
  constructor
  · intro h
    by_contra hdeg
    unfold decompose at h
    rw [if_neg hdeg] at h
    obtain ⟨insts, hok⟩ := maskPass_ok_of_present (g := g)
      (fun v hv => truePositions_maskOf_ne_nil
        (mem_uniqueSorted.mp (List.mem_of_mem_filter hv)))
    rw [hok] at h
    exact absurd h (by simp)
  · intro h
    unfold decompose
    rw [if_pos h]

/-- C7: in the spec's `decompose`, a scanned value with zero matching
pixels makes the mask pass fail with `InconsistentLabelError`; and since
the value list is rebuilt from the same immutable grid, the branch is
unreachable — `decompose` itself never returns that error. -/
theorem decompose_inconsistent_unreachable :
    (∀ (g : Grid) (vs : List Nat) (v : Nat), v ∈ vs →
        truePositions (maskOf g v) = [] →
        maskPass g vs = Except.error DecomposeError.inconsistentLabel) ∧
    (∀ g : Grid, decompose g ≠ Except.error DecomposeError.inconsistentLabel) := by
  constructor
  · intro g vs
    induction vs with
    | nil => intro v hv; simp at hv
    | cons w vs ih =>
      intro v hv hempty
      unfold maskPass specInstanceOf
      cases hps : truePositions (maskOf g w) with
      | nil => rfl
      | cons p ps =>
        rcases List.mem_cons.mp hv with rfl | hv'
        · exact absurd hps (by rw [hempty]; simp)
        · rw [ih v hv' hempty]
  · intro g h
    unfold decompose at h
    split at h
    · exact absurd h (by simp)
    · obtain ⟨insts, hok⟩ := maskPass_ok_of_present (g := g)
        (fun v hv => truePositions_maskOf_ne_nil
          (mem_uniqueSorted.mp (List.mem_of_mem_filter hv)))
      rw [hok] at h
      exact absurd h (by simp)

/-- Witness for C7: a deliberately inconsistent value list (value 3 never
occurs in the all-zero grid) trips the error, and on an actual grid the
error does not occur. -/
theorem decompose_inconsistent_unreachable_concrete :
    maskPass [[0]] [3] = Except.error DecomposeError.inconsistentLabel ∧
    decompose [[1]] ≠ Except.error DecomposeError.inconsistentLabel :=
  ⟨decompose_inconsistent_unreachable.1 [[0]] [3] 3 (by decide) (by decide),
    decompose_inconsistent_unreachable.2 [[1]]⟩

end PennFudan
